import Mathlib

/-!
Verification of the trading simulation (src/trading):
shallow embedding of `data.py` (price generator), `indicators.py`
(moving average, oscillators), `process.py` (buy / sell / ledger),
`performance.py` (ledger replay) and the `momentum` loop of
`strategy.py`, with theorems settling the frozen claims.

Conventions of the embedding:
* numpy float matrices with NaN sentinels are modelled as
  `Mat := ℕ → ℕ → Option ℚ` (row = day, column = stock,
  `none` = NaN); numpy arithmetic propagates NaN, which is the
  `Option`-bind arithmetic below.
* the random draws of `np.random` (normal increments, news events)
  are explicit parameters, so every function is deterministic in its
  inputs, exactly as one run of the source is deterministic in the
  values the generator happened to draw.
* Python lists mutated in place become values passed and returned.
-/

/-- A price / indicator matrix: day → stock → price, `none` being
numpy's NaN (a failed stock or an undefined indicator value). -/
abbrev Mat : Type := ℕ → ℕ → Option ℚ

/-- NaN-propagating addition: `x + y` is NaN when either operand is. -/
def oadd : Option ℚ → Option ℚ → Option ℚ
  | some a, some b => some (a + b)
  | _, _ => none

/-- NaN-propagating subtraction. -/
def osub : Option ℚ → Option ℚ → Option ℚ
  | some a, some b => some (a - b)
  | _, _ => none

/-- `np.amax` over a window column: NaN if any entry is NaN
(numpy's default max propagates NaN), otherwise the maximum. -/
def omaxL : List (Option ℚ) → Option ℚ
  | [] => none
  | x :: xs => xs.foldl (fun acc y =>
      match acc, y with
      | some a, some b => some (max a b)
      | _, _ => none) x

/-- `np.amin` over a window column, NaN-propagating. -/
def ominL : List (Option ℚ) → Option ℚ
  | [] => none
  | x :: xs => xs.foldl (fun acc y =>
      match acc, y with
      | some a, some b => some (min a b)
      | _, _ => none) x

/-! ## data.py — generate_stock_price

`generate_stock_price(days, initial_prices, volatility, news_probability)`:
the random walk increments `rng.normal(0, volatility, (days-1, n))` are
the parameter `inc` (row `day-1` is used on `day`, as in the source) and
the outcome of the per-day call to `news` is the parameter `newsDraw`:
`none` when no event fires that day (the source then adds a zero row,
a no-op), `some (m, dur)` when one fires with magnitude `m ~ N(0,2)`
and duration `dur ~ UniformInt[3,14]`; the drift row added is
`m * volatility` per stock. -/

/-- Day-0 state of the share price matrix: a zero matrix whose first
row is `initial_prices`, with every column whose initial price is `0`
set entirely to NaN (the source's `np.where(initial_prices == 0)`
marking). Stocks beyond the end of the list read as price 0, hence as
an all-NaN column, and are never referred to by the theorems. -/
def initMatrix (initial_prices : List ℚ) : Mat :=
  fun d s =>
    if initial_prices.getD s 0 = 0 then none
    else if d = 0 then some (initial_prices.getD s 0)
    else some 0

/-- Does this entry trigger the bankruptcy marking?  numpy's
`share_price_matrix[day] <= 0` is False on NaN entries. -/
def failsAt : Option ℚ → Bool
  | some v => decide (v ≤ 0)
  | none => false

/-- The random-walk update of the day loop:
`share_price_matrix[day] += share_price_matrix[day-1] + increment_matrix[day-1]`. -/
def stepA (inc : ℕ → ℕ → ℚ) (M : Mat) (day : ℕ) : Mat :=
  fun d s =>
    if d = day then oadd (M d s) (oadd (M (day - 1) s) (some (inc (day - 1) s)))
    else M d s

/-- The news update of the day loop: when an event fires on `day`, its
drift row `m * volatility` is added to days `day .. day+duration-1`,
truncated at the horizon (the source's `if day + duration > days - 1`
branch adds to `share_price_matrix[day:]`, i.e. up to
`min (day+dur) days`); a day without news adds a zero row, a no-op. -/
def stepB (days : ℕ) (volatility : List ℚ) (newsDraw : ℕ → Option (ℚ × ℕ))
    (M : Mat) (day : ℕ) : Mat :=
  match newsDraw day with
  | none => M
  | some md => fun d s =>
      if day ≤ d ∧ d < min (day + md.2) days then
        oadd (M d s) (some (md.1 * volatility.getD s 0))
      else M d s

/-- One iteration of the day loop of `generate_stock_price`: the
random-walk update, then the news drift, then the bankruptcy marking —
every stock whose entry on `day` is now `≤ 0` has days `day` onward
set to NaN. -/
def stepDay (days : ℕ) (volatility : List ℚ) (inc : ℕ → ℕ → ℚ)
    (newsDraw : ℕ → Option (ℚ × ℕ)) (M : Mat) (day : ℕ) : Mat :=
  fun d s =>
    if day ≤ d ∧ failsAt (stepB days volatility newsDraw (stepA inc M day) day day s) = true
    then none
    else stepB days volatility newsDraw (stepA inc M day) day d s

/-- Run the day loop from day `k` for `j` iterations
(the source's `for day in range(1, days)`). -/
def priceSteps (days : ℕ) (volatility : List ℚ) (inc : ℕ → ℕ → ℚ)
    (newsDraw : ℕ → Option (ℚ × ℕ)) : Mat → ℕ → ℕ → Mat
  | M, _, 0 => M
  | M, k, j + 1 =>
      priceSteps days volatility inc newsDraw
        (stepDay days volatility inc newsDraw M k) (k + 1) j

/-- `generate_stock_price` of data.py, with the random draws explicit. -/
def generate_stock_price (days : ℕ) (initial_prices volatility : List ℚ)
    (inc : ℕ → ℕ → ℚ) (newsDraw : ℕ → Option (ℚ × ℕ)) : Mat :=
  priceSteps days volatility inc newsDraw (initMatrix initial_prices) 1 (days - 1)

/-! ## indicators.py -/

/-- The trailing `nn`-day window of stock `s` ending on `day`:
`stock_prices[(day - (n - 1)) : (day + 1)]`, column `s`.
(Only read on days `day ≥ nn - 1`, where the slice has `nn` rows.) -/
def window (P : Mat) (nn day s : ℕ) : List (Option ℚ) :=
  (List.range nn).map fun k => P (day - (nn - 1) + k) s

/-- `np.mean` along a window column: NaN if any entry is NaN,
otherwise the arithmetic mean. -/
def omean (l : List (Option ℚ)) : Option ℚ :=
  if l.any (fun x => x.isNone) then none
  else some (l.reduceOption.sum / l.length)

/-- One component of `np.matmul(weights, window)`: the dot product of
the weight vector with one stock's window column; NaN-propagating
(in IEEE arithmetic `0 * NaN = NaN`, so any NaN in the column makes
the whole dot product NaN). -/
def odot (weights : List ℚ) (col : List (Option ℚ)) : Option ℚ :=
  if col.any (fun x => x.isNone) then none
  else some ((List.zipWith (fun w v => w * v) weights col.reduceOption).sum)

/-- `np.sum` of a vector of per-stock values, NaN-propagating. -/
def osum (l : List (Option ℚ)) : Option ℚ :=
  if l.any (fun x => x.isNone) then none
  else some l.reduceOption.sum

/-- `moving_average(stock_prices, n, weights)` of indicators.py.
`N` is the number of stocks (`stock_prices.shape[1]`).
* first `n - 1` days are NaN;
* unweighted branch (`weights == []`): per-stock mean of the window;
* weighted branch: the source computes
  `ma[day] = np.sum(np.matmul(weights_array, window), axis = 0)`;
  `matmul` of the `(n,)` weight vector with the `(n, N)` window is the
  `(N,)` vector of per-stock dot products, and `np.sum(..., axis = 0)`
  of that 1-D vector is its **scalar** total, which broadcast-assigns
  the same value (the sum over all stocks) to every stock of the row.
  The embedding reproduces that faithfully. -/
def moving_average (P : Mat) (nn : ℕ) (weights : List ℚ) (N : ℕ) : Mat :=
  fun day s =>
    if day < nn - 1 then none
    else if weights = [] then omean (window P nn day s)
    else osum ((List.range N).map fun j => odot weights (window P nn day j))

/-- The weighted moving average as the spec words it (modelled from the
spec, for comparison with the code): the result for each stock is the
dot product of `weights` against that stock's trailing window, in
chronological order. -/
def weighted_ma_spec (P : Mat) (nn : ℕ) (weights : List ℚ) : Mat :=
  fun day s =>
    if day < nn - 1 then none
    else odot weights (window P nn day s)

/-- The stochastic branch of `oscillator(stock_prices, n, 'stochastic')`:
`(stock_prices[day] - min) / (max - min)` over the trailing window.
With a NaN anywhere in the window, `amax`/`amin` and hence the quotient
are NaN.  On a flat window `max - min = 0` and the numerator
`price - min` is also `0`, so numpy produces `0/0 = NaN`: the `mx = mn`
branch below.  (A nonzero numerator over a zero denominator cannot
occur, since `min ≤ price ≤ max`.) -/
def oscillator_stoch (P : Mat) (nn : ℕ) : Mat :=
  fun day s =>
    if day < nn - 1 then none
    else
      match P day s with
      | none => none
      | some p =>
        match ominL (window P nn day s), omaxL (window P nn day s) with
        | some mn, some mx => if mx = mn then none else some ((p - mn) / (mx - mn))
        | _, _ => none

/-- The day-over-day differences used by the RSI branch:
`stock_prices[(day-(n-2)):(day+1)] - stock_prices[(day-(n-1)):day]`,
column `s` — the `n - 1` consecutive differences inside the window,
NaN wherever either price is NaN. -/
def rsi_diffs (P : Mat) (nn day s : ℕ) : List (Option ℚ) :=
  (List.range (nn - 1)).map fun k =>
    osub (P (day - (nn - 1) + (k + 1)) s) (P (day - (nn - 1) + k) s)

/-- The defined entries of `np.where(differences > 0, differences, np.nan)`:
the strictly positive differences (NaN differences stay NaN and are
skipped by `np.nanmean`, exactly as dropping them here). -/
def posParts (l : List (Option ℚ)) : List ℚ :=
  l.reduceOption.filter fun v => decide (0 < v)

/-- The defined entries of `np.where(differences < 0, differences, np.nan)`:
the strictly negative differences. -/
def negParts (l : List (Option ℚ)) : List ℚ :=
  l.reduceOption.filter fun v => decide (v < 0)

/-- Mean of the positive differences (`np.nanmean(positive_differences)`),
read off a difference list. -/
def avg_pos (l : List (Option ℚ)) : ℚ := (posParts l).sum / (posParts l).length

/-- Absolute mean of the negative differences
(`np.abs(np.nanmean(negative_differences))`). -/
def avg_neg (l : List (Option ℚ)) : ℚ := |(negParts l).sum / ((negParts l).length : ℚ)|

/-- The RSI branch of `oscillator(stock_prices, n, 'RSI')`.

The source's vectorised bookkeeping reduces to a per-stock case split,
which this definition follows.  Tracing the source for one stock and
one day `≥ n - 1`:
* a stock with **no** defined positive difference is recorded in
  `stock_where_no_pos` (`y = 1`) and its output is finally assigned `0`
  by `osc[day, stock_where_no_pos] = 0` — the **last** assignment, so
  it also wins for a stock that in addition has no defined negative
  difference (e.g. a flat or fully-NaN window, which first receives
  `1` from the `x = 1` assignment and is then overwritten with `0`);
* a stock with defined positive differences but no defined negative
  one gets `1` from `osc[day, stock_where_no_neg] = 1` (either the RS
  formula block put NaN there via `average_negative = NaN`, or the
  block was skipped entirely — `np.all(negative_differences == 0)` —
  which can only happen when every stock is flagged; either way the
  `x = 1` assignment overwrites it with `1`);
* a stock with both kinds of defined differences always reaches the RS
  block (its own positive and negative entries falsify both
  `np.all(... == 0)` guards) and gets
  `1 - 1/(1 + RS)` with `RS = nanmean(pos) / abs(nanmean(neg))`,
  the NaN differences being skipped by `nanmean`.

In particular the RSI branch yields a **defined** value on every day
`≥ n - 1`, NaN window or not. -/
def oscillator_RSI (P : Mat) (nn : ℕ) : Mat :=
  fun day s =>
    if day < nn - 1 then none
    else
      if posParts (rsi_diffs P nn day s) = [] then some 0
      else if negParts (rsi_diffs P nn day s) = [] then some 1
      else some (1 - 1 / (1 + avg_pos (rsi_diffs P nn day s) / avg_neg (rsi_diffs P nn day s)))

/-! ## process.py — transactions

The source's `portfolio` (a Python list of per-stock share counts,
mutated in place) is the field `holdings` below; the ledger file is the
field `ledger`, a list of parsed transaction records (`performance.py`
re-reads exactly the seven written fields, and the textual round trip
is value-faithful).  Python's `portfolio[stock]` raises on an
out-of-range index; the total `List.set` / `List.getD` used here are
only ever applied under the in-range side conditions of the theorems. -/

/-- One ledger line: `transaction_type, date, stock, number_of_shares,
price, fees, amount_spent`.  `isBuy = true` stands for `'buy'`
(parsed back as `1` by `read_ledger`), `false` for `'sell'` (`-1`). -/
structure Tx where
  isBuy : Bool
  date : ℕ
  stock : ℕ
  shares : ℚ
  price : ℚ
  fees : ℚ
  amount : ℚ
deriving DecidableEq

/-- `log_transaction` of process.py.  A buy is always written, with
`amount_spent = -(shares * price) - fees`; a sell is written only when
`number_of_shares > 0` ("if we have 0 stocks to sell we do nothing"),
with `amount_spent = shares * price - fees`. -/
def log_transaction (transaction_type : Bool) (date stock : ℕ)
    (number_of_shares price fees : ℚ) (ledger_file : List Tx) : List Tx :=
  if transaction_type then
    ledger_file ++
      [⟨true, date, stock, number_of_shares, price, fees,
        -(number_of_shares * price) - fees⟩]
  else if 0 < number_of_shares then
    ledger_file ++
      [⟨false, date, stock, number_of_shares, price, fees,
        number_of_shares * price - fees⟩]
  else ledger_file

/-- The state a strategy run threads through `buy` / `sell`:
the in-memory share-count list and the ledger appended so far. -/
structure TradeState where
  holdings : List ℚ
  ledger : List Tx
deriving DecidableEq

/-- `buy` of process.py.  On a defined price:
`available_stock_to_buy = np.floor((available_capital - fees) / price)`
(no lower clamp — the floor of a negative quotient is negative), added
to the holding, and the transaction is logged.  On a NaN price the
holding is forced to `0` and nothing is logged. -/
def buy (date stock : ℕ) (available_capital : ℚ) (stock_prices : Mat)
    (fees : ℚ) (st : TradeState) : TradeState :=
  match stock_prices date stock with
  | some price =>
      let available_stock_to_buy : ℚ := ((⌊(available_capital - fees) / price⌋ : ℤ) : ℚ)
      { holdings := st.holdings.set stock (st.holdings.getD stock 0 + available_stock_to_buy),
        ledger := log_transaction true date stock available_stock_to_buy price fees st.ledger }
  | none => { st with holdings := st.holdings.set stock 0 }

/-- `sell` of process.py.  On a defined price the whole current holding
is logged (via `log_transaction`, which drops zero-share sells) and the
holding is set to `0`; on a NaN price the holding is set to `0` with no
log. -/
def sell (date stock : ℕ) (stock_prices : Mat) (fees : ℚ)
    (st : TradeState) : TradeState :=
  match stock_prices date stock with
  | some price =>
      { holdings := st.holdings.set stock 0,
        ledger := log_transaction false date stock (st.holdings.getD stock 0) price fees st.ledger }
  | none => { st with holdings := st.holdings.set stock 0 }

/-- `create_portfolio` of process.py: starting from `np.zeros(N)`, buy
every stock on day 0 with its allotted amount.  (The source's final
`list(map(int, portfolio))` is the identity here: every holding is an
integer-valued rational, being a sum of `np.floor` outputs.) -/
def create_initial_holdings (available_amounts : List ℚ) (stock_prices : Mat)
    (fees : ℚ) (N : ℕ) (ledger0 : List Tx) : TradeState :=
  (List.range N).foldl
    (fun st stock => buy 0 stock (available_amounts.getD stock 0) stock_prices fees st)
    ⟨List.replicate N 0, ledger0⟩

/-- A buy or sell call issued by a strategy run. -/
inductive TradeOp where
  | buyOp (date stock : ℕ) (available_capital : ℚ)
  | sellOp (date stock : ℕ)

/-- Execute one strategy call. -/
def applyOp (stock_prices : Mat) (fees : ℚ) (st : TradeState) : TradeOp → TradeState
  | .buyOp d s c => buy d s c stock_prices fees st
  | .sellOp d s => sell d s stock_prices fees st

/-- Execute a sequence of strategy calls in order. -/
def runOps (stock_prices : Mat) (fees : ℚ) (st : TradeState)
    (ops : List TradeOp) : TradeState :=
  ops.foldl (applyOp stock_prices fees) st

/-! ## performance.py — read_ledger

Only the portfolio-reconstruction core is embedded (the parsing into
the `(no_of_trades, 7)` array is the identity on our `List Tx`, and the
plotting / pandas formatting is out of the claims' scope). -/

/-- Insert into a sorted list of days (ascending). -/
def insertSorted (d : ℕ) : List ℕ → List ℕ
  | [] => [d]
  | x :: xs => if d ≤ x then d :: x :: xs else x :: insertSorted d xs

/-- `np.unique(ledger_data[:, 1])`: the distinct trading days, in
increasing order. -/
def tradingDays (L : List Tx) : List ℕ :=
  ((L.map Tx.date).dedup).foldr insertSorted []

/-- One iteration of read_ledger's day loop, producing the portfolio
snapshot of `day` from the previous day's snapshot `prev`:
* if stocks were both bought and sold on the day, the source assigns
  `portfolio[i, stocks_bought] = portfolio[i-1, stocks_bought] + shares`
  and `portfolio[i, stocks_sold] = portfolio[i-1, stocks_sold] - shares`
  into the still **zero-initialised** row `portfolio[i]` — it never
  copies `portfolio[i-1]` in this branch, so untraded stocks read 0;
* if stocks were only bought (resp. only sold), the row is first copied
  from `portfolio[i-1]` and the traded entries are then adjusted;
* numpy fancy-index assignment applies duplicate indices last-wins with
  the right-hand side computed from `portfolio[i-1]`, which the
  `foldl` over rows reproduces. -/
def replayStep (L : List Tx) (prev : List ℚ) (day : ℕ) : List ℚ :=
  let bought_on_day := L.filter fun t => t.isBuy && t.date == day
  let sold_on_day := L.filter fun t => (!t.isBuy) && t.date == day
  if bought_on_day ≠ [] ∧ sold_on_day ≠ [] then
    let afterBuy := bought_on_day.foldl
      (fun r t => r.set t.stock (prev.getD t.stock 0 + t.shares))
      (List.replicate prev.length 0)
    sold_on_day.foldl
      (fun r t => r.set t.stock (prev.getD t.stock 0 - t.shares)) afterBuy
  else if bought_on_day ≠ [] then
    bought_on_day.foldl
      (fun r t => r.set t.stock (prev.getD t.stock 0 + t.shares)) prev
  else if sold_on_day ≠ [] then
    sold_on_day.foldl
      (fun r t => r.set t.stock (prev.getD t.stock 0 - t.shares)) prev
  else prev

/-- The portfolio-history matrix reconstructed by `read_ledger`:
row 0 is the `shares` column of the day-0 transactions (in ledger
order, one per stock when the run starts with `create_portfolio`),
and each further trading day is obtained by `replayStep`. -/
def read_ledger_history (L : List Tx) : List (List ℚ) :=
  let snapshot0 := (L.filter fun t => t.date == 0).map Tx.shares
  ((tradingDays L).drop 1).foldl
    (fun acc day => acc ++ [replayStep L (acc.getLastD snapshot0) day])
    [snapshot0]

/-- The last reconstructed snapshot: the per-stock share counts the
replay arrives at after applying every logged transaction. -/
def read_ledger_final (L : List Tx) : List ℚ :=
  (read_ledger_history L).getLastD []

/-! ## strategy.py — the momentum loop with `wait_time = 0`

The `else` branch of `momentum` (taken when `wait_time = 0`) performs,
for each `day` in `range(day_1, total_days)`:

    stocks_to_buy_now  = np.where((osc[day] < lower) & (osc[day-1] >= lower))[0]
    if np.any(stocks_to_buy_now): buy each of them
    stocks_to_sell_now = np.where((osc[day] > upper) & (osc[day-1] <= upper))[0]
    if np.any(stocks_to_sell_now) != 0: sell each of them

`np.where(...)[0]` is the array of **stock indices** satisfying the
condition, and `np.any` of an index array is True iff some entry is
nonzero — so a day on which the only triggering stock is stock `0`
fails the guard.  Comparisons against NaN oscillator entries are
False, as in numpy. -/

/-- `(oscillator[day] < lower) & (oscillator[day - 1] >= lower)`:
the crossing-below test of the momentum buy rule. -/
def crossBelowB (osc : Mat) (lower : ℚ) (day s : ℕ) : Bool :=
  (match osc day s with
   | some v => decide (v < lower)
   | none => false) &&
  (match osc (day - 1) s with
   | some v => decide (lower ≤ v)
   | none => false)

/-- `(oscillator[day] > upper) & (oscillator[day - 1] <= upper)`:
the crossing-above test of the momentum sell rule. -/
def crossAboveB (osc : Mat) (upper : ℚ) (day s : ℕ) : Bool :=
  (match osc day s with
   | some v => decide (upper < v)
   | none => false) &&
  (match osc (day - 1) s with
   | some v => decide (v ≤ upper)
   | none => false)

/-- One day of the `wait_time = 0` momentum loop, appending the
`(day, isBuy, stock)` trades it issues, with the `np.any` guards of
the source embedded exactly. -/
def momentum_wait0_step (osc : Mat) (lower upper : ℚ) (N : ℕ)
    (acc : List (ℕ × Bool × ℕ)) (day : ℕ) : List (ℕ × Bool × ℕ) :=
  let stocks_to_buy_now := (List.range N).filter (crossBelowB osc lower day)
  let acc1 :=
    if stocks_to_buy_now.any (fun s => decide (s ≠ 0)) then
      acc ++ stocks_to_buy_now.map (fun s => (day, true, s))
    else acc
  let stocks_to_sell_now := (List.range N).filter (crossAboveB osc upper day)
  if stocks_to_sell_now.any (fun s => decide (s ≠ 0)) then
    acc1 ++ stocks_to_sell_now.map (fun s => (day, false, s))
  else acc1

/-- The trades issued by the `wait_time = 0` branch of `momentum` over
`day ∈ [day1, total)` (`day1 = n - 1` when no smoothing is used);
the initial `create_portfolio` buys and the forced liquidation of the
final day are separate from this decision loop. -/
def momentum_wait0_trades (osc : Mat) (lower upper : ℚ)
    (day1 total N : ℕ) : List (ℕ × Bool × ℕ) :=
  (List.range' day1 (total - day1)).foldl (momentum_wait0_step osc lower upper N) []

/-! ## Concrete inputs used by witnesses and counterexamples -/

/-- Constant defined price 5 for every day and stock. -/
def pricesC5 : Mat := fun _ _ => some 5

/-- Constant defined price 10 for every day and stock. -/
def pricesC6 : Mat := fun _ _ => some 10

/-- Stock 0 permanently failed, stock 1 at constant price 1. -/
def pricesC7 : Mat := fun _ s => if s = 0 then none else some 1

/-! ## Helper lemmas on `List.set` / `List.getD` -/

/-- Reading back the written index, in range. -/
theorem getD_set_self (l : List ℚ) (i : ℕ) (a : ℚ) (h : i < l.length) :
    (l.set i a).getD i 0 = a := by
  simp [List.getD_eq_getElem?_getD, List.getElem?_set_self', List.getElem?_eq_getElem h]

/-- Writing out of range is a no-op (Python would raise instead; the
theorems only invoke this under in-range side conditions). -/
theorem getD_set_oob (l : List ℚ) (i : ℕ) (a : ℚ) (h : l.length ≤ i) :
    (l.set i a) = l :=
  List.set_eq_of_length_le h

/-- Reading an untouched index. -/
theorem getD_set_ne (l : List ℚ) (i j : ℕ) (a : ℚ) (h : j ≠ i) :
    (l.set i a).getD j 0 = l.getD j 0 := by
  simp [List.getD_eq_getElem?_getD, List.getElem?_set_ne (fun he => h he.symm)]

/-! ## Claims C5, C6, C7 -/

/-- Claim C5, corrected.  `sell` on a defined price: when the prior
holding is positive, exactly one transaction is appended, with
`shares` = prior holding and cash flow `shares * price - fees`; when
the prior holding is not positive, `log_transaction` drops the record
and nothing is appended (refuting the claim's "even when that prior
holding is 0"); in both cases the holding is set to 0. -/
theorem C5_sell_amended (date stock : ℕ) (P : Mat) (fees p : ℚ) (st : TradeState)
    (hp : P date stock = some p) :
    (0 < st.holdings.getD stock 0 →
      (sell date stock P fees st).ledger =
        st.ledger ++ [⟨false, date, stock, st.holdings.getD stock 0, p, fees,
          st.holdings.getD stock 0 * p - fees⟩]) ∧
    (st.holdings.getD stock 0 ≤ 0 → (sell date stock P fees st).ledger = st.ledger) ∧
    (sell date stock P fees st).holdings = st.holdings.set stock 0 := by
  refine ⟨fun h => ?_, fun h => ?_, ?_⟩
  · rw [List.getD_eq_getElem?_getD] at h
    simp [sell, hp, log_transaction, h, List.getD_eq_getElem?_getD]
  · rw [List.getD_eq_getElem?_getD] at h
    simp [sell, hp, log_transaction, not_lt.mpr h, List.getD_eq_getElem?_getD]
  · simp [sell, hp]

/-- Witness for C5: selling a holding of 2 shares at price 5 with fees
1 appends the single expected record and zeroes the holding. -/
theorem C5_sell_amended_witness :
    (sell 0 0 pricesC5 1 ⟨[2], []⟩).ledger = [⟨false, 0, 0, 2, 5, 1, 9⟩] ∧
    (sell 0 0 pricesC5 1 ⟨[2], []⟩).holdings = [0] := by
  have h := C5_sell_amended 0 0 pricesC5 1 5 ⟨[2], []⟩ rfl
  refine ⟨?_, ?_⟩
  · rw [h.1 (by norm_num [List.getD])]
    norm_num [List.getD]
  · rw [h.2.2]
    rfl

/-- Counterexample to C5 as stated: selling a holding of 0 shares at a
defined price appends no transaction at all (the claim demands exactly
one, with share count 0). -/
theorem C5_zero_share_sell_skipped :
    (sell 0 0 pricesC5 1 ⟨[0], []⟩).ledger = [] ∧
    (sell 0 0 pricesC5 1 ⟨[0], []⟩).holdings = [0] := by
  constructor
  · simp [sell, pricesC5, log_transaction]
  · simp [sell, pricesC5, log_transaction]

/-- Claim C6, corrected.  Under the function's own documented
precondition that the available capital covers the fees (and a positive
price), the computed share count `⌊(capital - fees) / price⌋` is
non-negative and `buy` preserves non-negativity of every holding.
(Without that precondition the claim fails: the source applies no
clamp beyond `np.floor`, see the counterexample.) -/
theorem C6_buy_amended (date stock : ℕ) (c p fees : ℚ) (P : Mat) (st : TradeState)
    (hp : P date stock = some p) (hpos : 0 < p) (hcap : fees ≤ c) :
    (0 : ℚ) ≤ ((⌊(c - fees) / p⌋ : ℤ) : ℚ) ∧
    ∀ j, 0 ≤ st.holdings.getD j 0 → 0 ≤ (buy date stock c P fees st).holdings.getD j 0 := by
  have hfl : (0 : ℚ) ≤ ((⌊(c - fees) / p⌋ : ℤ) : ℚ) := by
    have : (0 : ℤ) ≤ ⌊(c - fees) / p⌋ :=
      Int.floor_nonneg.mpr (div_nonneg (by linarith) hpos.le)
    exact_mod_cast this
  refine ⟨hfl, fun j hj => ?_⟩
  by_cases hjs : j = stock
  · subst hjs
    by_cases hlen : j < st.holdings.length
    · simp only [buy, hp]
      rw [getD_set_self _ _ _ hlen]
      linarith
    · simp only [buy, hp]
      rw [getD_set_oob _ _ _ (le_of_not_lt hlen)]
      exact hj
  · simp only [buy, hp]
    rw [getD_set_ne _ _ _ _ hjs]
    exact hj

/-- Witness for C6: buying with capital 100, fees 20, price 10 yields a
non-negative share count and a non-negative holding. -/
theorem C6_buy_amended_witness :
    (0 : ℚ) ≤ ((⌊((100 : ℚ) - 20) / 10⌋ : ℤ) : ℚ) ∧
    0 ≤ (buy 0 0 100 pricesC6 20 ⟨[0], []⟩).holdings.getD 0 0 := by
  have h := C6_buy_amended 0 0 100 10 20 pricesC6 ⟨[0], []⟩ rfl (by norm_num) (by norm_num)
  exact ⟨h.1, h.2 0 (by norm_num [List.getD])⟩

/-- Counterexample to C6 as stated: with available capital 0, fees 20
and price 10 the floor is `-2`, and `buy` drives the holding negative
(the claim asserts the share count is always `≥ 0` and a 0-share
purchase happens when capital < fees). -/
theorem C6_buy_negative_shares :
    (buy 0 0 0 pricesC6 20 ⟨[0], []⟩).holdings = [-2] ∧
    (buy 0 0 0 pricesC6 20 ⟨[0], []⟩).holdings.getD 0 0 < 0 := by
  have h : (buy 0 0 0 pricesC6 20 ⟨[0], []⟩).holdings = [-2] := by
    simp [buy, pricesC6, log_transaction]
    norm_num
  exact ⟨h, by rw [h]; norm_num [List.getD]⟩

/-- Claim C7, confirmed.  `buy` and `sell` on a stock whose price on
the given day is NaN append nothing to the ledger, force that stock's
holding to 0, and leave every other holding unchanged (and, being
total functions that take the `else` branch, they do not raise). -/
theorem C7_failed_price_noop (date stock : ℕ) (c fees : ℚ) (P : Mat) (st : TradeState)
    (hp : P date stock = none) :
    (buy date stock c P fees st).ledger = st.ledger ∧
    (buy date stock c P fees st).holdings = st.holdings.set stock 0 ∧
    (sell date stock P fees st).ledger = st.ledger ∧
    (sell date stock P fees st).holdings = st.holdings.set stock 0 ∧
    ∀ j, j ≠ stock →
      (buy date stock c P fees st).holdings.getD j 0 = st.holdings.getD j 0 ∧
      (sell date stock P fees st).holdings.getD j 0 = st.holdings.getD j 0 := by
  refine ⟨?_, ?_, ?_, ?_, fun j hj => ⟨?_, ?_⟩⟩
  · simp [buy, hp]
  · simp [buy, hp]
  · simp [sell, hp]
  · simp [sell, hp]
  · simp only [buy, hp]
    exact getD_set_ne _ _ _ _ hj
  · simp only [sell, hp]
    exact getD_set_ne _ _ _ _ hj

/-- Witness for C7: on a failed price, buying and selling stock 0 of
the two-stock holding `[3, 4]` log nothing, zero stock 0 and leave
stock 1 at 4. -/
theorem C7_failed_price_noop_witness :
    (buy 0 0 5 pricesC7 1 ⟨[3, 4], []⟩).ledger = [] ∧
    (buy 0 0 5 pricesC7 1 ⟨[3, 4], []⟩).holdings = [0, 4] ∧
    (sell 0 0 pricesC7 1 ⟨[3, 4], []⟩).ledger = [] ∧
    (sell 0 0 pricesC7 1 ⟨[3, 4], []⟩).holdings = [0, 4] := by
  have h := C7_failed_price_noop 0 0 5 1 pricesC7 ⟨[3, 4], []⟩ rfl
  exact ⟨h.1, by rw [h.2.1]; rfl, h.2.2.1, by rw [h.2.2.2.1]; rfl⟩

/-! ## Claim C1 — ledger replay vs. the in-memory run -/

/-- Constant defined price 10 for three stocks. -/
def pricesC1 : Mat := fun _ _ => some 10

/-- A three-stock run: `create_portfolio` with 100 per stock and zero
fees on day 0 (10 shares each), then on day 1 a buy of stock 0 with
capital 50 (5 more shares) and a sell of stock 1 (its 10 shares). -/
def runC1 : TradeState :=
  runOps pricesC1 0 (create_initial_holdings [100, 100, 100] pricesC1 0 3 [])
    [TradeOp.buyOp 1 0 50, TradeOp.sellOp 1 1]

/-- The five ledger lines the run above writes. -/
def ledgerC1 : List Tx :=
  [⟨true, 0, 0, 10, 10, 0, -100⟩, ⟨true, 0, 1, 10, 10, 0, -100⟩,
   ⟨true, 0, 2, 10, 10, 0, -100⟩, ⟨true, 1, 0, 5, 10, 0, -50⟩,
   ⟨false, 1, 1, 10, 10, 0, 100⟩]

/-- Claim C1 demonstrated false on the code: the run ends holding
`[15, 0, 10]`, but replaying its own ledger ends at `[15, 0, 0]` —
day 1 has both a buy and a sell, and in that branch `read_ledger`
writes the traded entries into a zero row without copying the previous
day's snapshot, so the untraded stock 2 is zeroed. -/
theorem C1_read_ledger_mixed_day_mismatch :
    runC1.ledger = ledgerC1 ∧
    runC1.holdings = [15, 0, 10] ∧
    read_ledger_final ledgerC1 = [15, 0, 0] ∧
    read_ledger_final runC1.ledger ≠ runC1.holdings := by
  have hled : runC1.ledger = ledgerC1 := by
    simp [runC1, ledgerC1, runOps, applyOp, create_initial_holdings, buy, sell, pricesC1,
      log_transaction, List.range_succ]
    norm_num
  have hhold : runC1.holdings = [15, 0, 10] := by
    simp [runC1, runOps, applyOp, create_initial_holdings, buy, sell, pricesC1,
      log_transaction, List.range_succ]
    norm_num
  have hfin : read_ledger_final ledgerC1 = [15, 0, 0] := by
    simp [read_ledger_final, read_ledger_history, tradingDays, ledgerC1, replayStep,
      insertSorted, List.filter]
    norm_num
  refine ⟨hled, hhold, hfin, ?_⟩
  rw [hled, hfin, hhold]
  intro h
  have h2 := congrArg (fun l => l.getD 2 0) h
  norm_num [List.getD] at h2

/-! ## Claim C4 — the weighted moving average -/

/-- One day, two stocks, prices 1 and 2. -/
def pricesC4 : Mat := fun _ s => if s = 0 then some 1 else some 2

/-- Claim C4 demonstrated false on the code: with window 1 and weight
`[1]` the per-stock dot products are 1 and 2, but `moving_average`
assigns both stocks the scalar `np.sum` of the whole dotted row, 3.
(`weighted_ma_spec` is the spec's per-stock dot product.) -/
theorem C4_weighted_ma_cross_stock_sum :
    moving_average pricesC4 1 [1] 2 0 0 = some 3 ∧
    moving_average pricesC4 1 [1] 2 0 1 = some 3 ∧
    weighted_ma_spec pricesC4 1 [1] 0 0 = some 1 ∧
    weighted_ma_spec pricesC4 1 [1] 0 1 = some 2 ∧
    moving_average pricesC4 1 [1] 2 0 0 ≠ weighted_ma_spec pricesC4 1 [1] 0 0 := by
  have h1 : moving_average pricesC4 1 [1] 2 0 0 = some 3 := by
    simp [moving_average, pricesC4, osum, odot, window, List.range_succ]
    norm_num
  have h2 : moving_average pricesC4 1 [1] 2 0 1 = some 3 := by
    simp [moving_average, pricesC4, osum, odot, window, List.range_succ]
    norm_num
  have h3 : weighted_ma_spec pricesC4 1 [1] 0 0 = some 1 := by
    simp [weighted_ma_spec, pricesC4, odot, window, List.range_succ]
  have h4 : weighted_ma_spec pricesC4 1 [1] 0 1 = some 2 := by
    simp [weighted_ma_spec, pricesC4, odot, window, List.range_succ]
  refine ⟨h1, h2, h3, h4, ?_⟩
  rw [h1, h3]
  intro h
  norm_num [Option.some.injEq] at h

/-! ## Claim C9 — momentum with wait_time = 0 -/

/-- A single stock with prices 1, 2, 3, 2: its 2-day stochastic
oscillator is 1 on days 1 and 2 and 0 on day 3 — a crossing below the
lower threshold 1/4 between days 2 and 3. -/
def pricesC9 : Mat := fun d s =>
  if s = 0 then some (([1, 2, 3, 2] : List ℚ).getD d 0) else none

/-- Claim C9 demonstrated false on the code: the crossing-below test
fires for stock 0 on day 3, yet the `wait_time = 0` momentum loop
issues no trade at all — `np.any(stocks_to_buy_now)` on the index
array `[0]` is False, so a day whose only triggering stock is stock 0
is skipped. -/
theorem C9_momentum_wait0_stock0_no_trade :
    crossBelowB (oscillator_stoch pricesC9 2) (1/4) 3 0 = true ∧
    momentum_wait0_trades (oscillator_stoch pricesC9 2) (1/4) (3/4) 1 4 1 = [] := by
  constructor
  · simp [crossBelowB, oscillator_stoch, pricesC9, window, omaxL, ominL, List.range_succ]
    norm_num
  · simp [momentum_wait0_trades, momentum_wait0_step, crossBelowB, crossAboveB,
      oscillator_stoch, pricesC9, window, omaxL, ominL, List.range_succ, List.range']

/-- The single-stock price column `[1, 2, 3, 4, 5]` of the spec's
scenario C (other columns constant 0: the matrix has no failed entry). -/
def pricesC10 : Mat := fun d s =>
  if s = 0 then some (([1, 2, 3, 4, 5] : List ℚ).getD d 0) else some 0

/-! ## Helper lemmas on all-defined windows -/

/-- `reduceOption` undoes mapping `some` over a list. -/
theorem reduceOption_map_some (l : List ℕ) (f : ℕ → ℚ) :
    (l.map fun k => some (f k)).reduceOption = l.map f := by
  induction l with
  | nil => rfl
  | cons a t ih => simp [ih]

/-- A list of `some`s has no `none`. -/
theorem any_isNone_map_some (l : List ℕ) (f : ℕ → ℚ) :
    (l.map fun k => some (f k)).any (fun x => x.isNone) = false := by
  induction l with
  | nil => rfl
  | cons a t ih => simp [ih]

/-- Summing the pointwise negation negates the sum. -/
theorem sum_map_neg (l : List ℚ) : (l.map fun x => -x).sum = -l.sum := by
  induction l with
  | nil => simp
  | cons a t ih => simp [ih]; ring

/-- A nonempty list of negative rationals has negative sum. -/
theorem sum_neg_of_all_neg (l : List ℚ) (h : ∀ x ∈ l, x < 0) (hne : l ≠ []) :
    l.sum < 0 := by
  have hpos : 0 < (l.map fun x => -x).sum := by
    refine List.sum_pos _ (fun y hy => ?_) (by simpa using hne)
    rcases List.mem_map.mp hy with ⟨x, hx, rfl⟩
    simpa using h x hx
  rw [sum_map_neg] at hpos
  linarith

/-- On an all-defined window the difference list of the RSI branch is
the list of consecutive value differences. -/
theorem rsi_diffs_of_defined (P : Mat) (nn day s : ℕ) (vals : ℕ → ℚ)
    (hw : ∀ k < nn, P (day - (nn - 1) + k) s = some (vals k)) :
    rsi_diffs P nn day s =
      (List.range (nn - 1)).map fun k => some (vals (k + 1) - vals k) := by
  unfold rsi_diffs
  refine List.map_congr_left fun k hk => ?_
  have hk1 : k < nn - 1 := List.mem_range.mp hk
  have hklt : k < nn := lt_of_lt_of_le hk1 (Nat.sub_le _ _)
  have hk1lt : k + 1 < nn := by omega
  rw [hw k hklt, hw (k + 1) hk1lt, osub]

/-! ## Claim C10 — the unweighted moving average -/

/-- Claim C10, confirmed.  On a window of defined prices the
unweighted moving average is NaN on the first `window - 1` days for
every stock, and on any day `≥ window - 1` equals the exact arithmetic
mean of the stock's trailing window entries. -/
theorem C10_unweighted_ma (P : Mat) (nn N day s : ℕ) (vals : ℕ → ℚ)
    (hday : nn - 1 ≤ day)
    (hw : ∀ k < nn, P (day - (nn - 1) + k) s = some (vals k)) :
    moving_average P nn [] N day s = some (((List.range nn).map vals).sum / nn) ∧
    ∀ d < nn - 1, ∀ j, moving_average P nn [] N d j = none := by
  constructor
  · have hwin : window P nn day s = (List.range nn).map fun k => some (vals k) :=
      List.map_congr_left fun k hk => hw k (List.mem_range.mp hk)
    unfold moving_average
    rw [if_neg (not_lt.mpr hday), if_pos rfl, hwin]
    simp only [omean, any_isNone_map_some, reduceOption_map_some, Bool.false_eq_true,
      if_false, List.length_map, List.length_range]
  · intro d hd j
    simp [moving_average, hd]

/-- Witness for C10, the spec's end-to-end scenario C:
`moving_average([1,2,3,4,5], window=3)` is
`[NaN, NaN, 2, 3, 4]`. -/
theorem C10_unweighted_ma_witness :
    moving_average pricesC10 3 [] 1 0 0 = none ∧
    moving_average pricesC10 3 [] 1 1 0 = none ∧
    moving_average pricesC10 3 [] 1 2 0 = some 2 ∧
    moving_average pricesC10 3 [] 1 3 0 = some 3 ∧
    moving_average pricesC10 3 [] 1 4 0 = some 4 := by
  have hbase := fun (day : ℕ) (vals : ℕ → ℚ) => C10_unweighted_ma pricesC10 3 1 day 0 vals
  refine ⟨?_, ?_, ?_, ?_, ?_⟩
  · exact (hbase 2 (fun k => (k : ℚ) + 1) (by norm_num)
      (by intro k hk; interval_cases k <;> norm_num [pricesC10, List.getD])).2 0 (by norm_num) 0
  · exact (hbase 2 (fun k => (k : ℚ) + 1) (by norm_num)
      (by intro k hk; interval_cases k <;> norm_num [pricesC10, List.getD])).2 1 (by norm_num) 0
  · rw [(hbase 2 (fun k => (k : ℚ) + 1) (by norm_num)
      (by intro k hk; interval_cases k <;> norm_num [pricesC10, List.getD])).1]
    norm_num [List.range_succ]
  · rw [(hbase 3 (fun k => (k : ℚ) + 2) (by norm_num)
      (by intro k hk; interval_cases k <;> norm_num [pricesC10, List.getD])).1]
    norm_num [List.range_succ]
  · rw [(hbase 4 (fun k => (k : ℚ) + 3) (by norm_num)
      (by intro k hk; interval_cases k <;> norm_num [pricesC10, List.getD])).1]
    norm_num [List.range_succ]

/-! ## Claim C8 — the RSI oscillator -/

/-- Flat prices: every day-over-day difference is 0. -/
def pricesC8 : Mat := fun _ _ => some 5

/-- Single stock with prices 1, 3, 2: one up difference (+2) and one
down difference (-1) in the 3-day window ending on day 2. -/
def pricesC8w : Mat := fun d s =>
  if s = 0 then some (([1, 3, 2] : List ℚ).getD d 0) else some 0

/-- Counterexample to C8 as stated: on a flat (defined) window there
are no negative day-over-day differences, yet the RSI value is 0, not
the claimed 1 — the source's final `osc[day, stock_where_no_pos] = 0`
assignment overwrites the earlier `= 1`. -/
theorem C8_flat_window_rsi_zero :
    negParts (rsi_diffs pricesC8 3 2 0) = [] ∧
    oscillator_RSI pricesC8 3 2 0 = some 0 ∧
    oscillator_RSI pricesC8 3 2 0 ≠ some 1 := by
  refine ⟨?_, ?_, ?_⟩
  · simp [pricesC8, rsi_diffs, negParts, osub, List.range_succ]
  · simp [oscillator_RSI, pricesC8, rsi_diffs, posParts, negParts, osub, List.range_succ]
  · have h : oscillator_RSI pricesC8 3 2 0 = some 0 := by
      simp [oscillator_RSI, pricesC8, rsi_diffs, posParts, negParts, osub, List.range_succ]
    rw [h]
    intro hc
    norm_num [Option.some.injEq] at hc


/-- The RSI formula `1 - 1/(1 + a/b)` lies in `[0, 1]` for positive
`a` (average gain) and `b` (average loss). -/
theorem rsi_formula_bounds (a b : ℚ) (ha : 0 < a) (hb : 0 < b) :
    0 ≤ 1 - 1 / (1 + a / b) ∧ 1 - 1 / (1 + a / b) ≤ 1 := by
  have hrs : 0 < a / b := div_pos ha hb
  have h1 : 0 < 1 / (1 + a / b) := one_div_pos.mpr (by linarith)
  have h2 : 1 / (1 + a / b) ≤ 1 := by
    rw [div_le_one (by linarith)]
    linarith
  constructor <;> linarith

/-- Claim C8, corrected.  On a defined window: if no difference is
positive (including the flat window, where the claim's no-negative
clause wrongly demands 1) the RSI value is 0; if some difference is
positive and none negative it is 1; if both kinds occur it is
`1 - 1/(1 + avg_pos/avg_neg)` with `avg_pos` the mean of the positive
differences and `avg_neg` the absolute mean of the negative ones; and
every defined RSI value whatsoever lies in [0, 1]. -/
theorem C8_rsi_amended (P : Mat) (nn day s : ℕ) (vals : ℕ → ℚ)
    (hday : nn - 1 ≤ day)
    (hw : ∀ k < nn, P (day - (nn - 1) + k) s = some (vals k)) :
    ((∀ k < nn - 1, vals (k + 1) ≤ vals k) → oscillator_RSI P nn day s = some 0) ∧
    ((∀ k < nn - 1, vals k ≤ vals (k + 1)) → (∃ k, k < nn - 1 ∧ vals k < vals (k + 1)) →
      oscillator_RSI P nn day s = some 1) ∧
    (posParts (rsi_diffs P nn day s) ≠ [] → negParts (rsi_diffs P nn day s) ≠ [] →
      oscillator_RSI P nn day s =
        some (1 - 1 / (1 + avg_pos (rsi_diffs P nn day s) / avg_neg (rsi_diffs P nn day s)))) ∧
    (∀ d j v, oscillator_RSI P nn d j = some v → 0 ≤ v ∧ v ≤ 1) := by
  have hdiffs := rsi_diffs_of_defined P nn day s vals hw
  refine ⟨?_, ?_, ?_, ?_⟩
  · intro hmono
    have hpos : posParts (rsi_diffs P nn day s) = [] := by
      rw [hdiffs]
      unfold posParts
      rw [reduceOption_map_some]
      refine List.filter_eq_nil_iff.mpr fun a ha => ?_
      rcases List.mem_map.mp ha with ⟨k, hk, rfl⟩
      have := hmono k (List.mem_range.mp hk)
      simpa using by linarith
    simp only [oscillator_RSI]
    rw [if_neg (not_lt.mpr hday), if_pos hpos]
  · intro hmono hex
    rcases hex with ⟨k0, hk0, hlt⟩
    have hneg : negParts (rsi_diffs P nn day s) = [] := by
      rw [hdiffs]
      unfold negParts
      rw [reduceOption_map_some]
      refine List.filter_eq_nil_iff.mpr fun a ha => ?_
      rcases List.mem_map.mp ha with ⟨k, hk, rfl⟩
      have := hmono k (List.mem_range.mp hk)
      simpa using by linarith
    have hpos : posParts (rsi_diffs P nn day s) ≠ [] := by
      rw [hdiffs]
      unfold posParts
      rw [reduceOption_map_some]
      have hmem : vals (k0 + 1) - vals k0 ∈
          ((List.range (nn - 1)).map fun k => vals (k + 1) - vals k).filter
            fun v => decide (0 < v) := by
        refine List.mem_filter.mpr ⟨List.mem_map.mpr ⟨k0, List.mem_range.mpr hk0, rfl⟩, ?_⟩
        simpa using by linarith
      exact List.ne_nil_of_mem hmem
    simp only [oscillator_RSI]
    rw [if_neg (not_lt.mpr hday), if_neg hpos, if_pos hneg]
  · intro h1 h2
    simp only [oscillator_RSI]
    rw [if_neg (not_lt.mpr hday), if_neg h1, if_neg h2]
  · intro d j v h
    simp only [oscillator_RSI] at h
    by_cases hlt : d < nn - 1
    · rw [if_pos hlt] at h
      exact absurd h (by simp)
    · rw [if_neg hlt] at h
      by_cases hpos : posParts (rsi_diffs P nn d j) = []
      · rw [if_pos hpos, Option.some.injEq] at h
        subst h
        norm_num
      · rw [if_neg hpos] at h
        by_cases hneg : negParts (rsi_diffs P nn d j) = []
        · rw [if_pos hneg, Option.some.injEq] at h
          subst h
          norm_num
        · rw [if_neg hneg, Option.some.injEq] at h
          have hposl : ∀ x ∈ posParts (rsi_diffs P nn d j), 0 < x := by
            intro x hx
            have := (List.mem_filter.mp hx).2
            simpa using this
          have hnegl : ∀ x ∈ negParts (rsi_diffs P nn d j), x < 0 := by
            intro x hx
            have := (List.mem_filter.mp hx).2
            simpa using this
          have hplen : 0 < ((posParts (rsi_diffs P nn d j)).length : ℚ) := by
            exact_mod_cast List.length_pos.mpr hpos
          have hnlen : 0 < ((negParts (rsi_diffs P nn d j)).length : ℚ) := by
            exact_mod_cast List.length_pos.mpr hneg
          have ha : 0 < avg_pos (rsi_diffs P nn d j) :=
            div_pos (List.sum_pos _ hposl hpos) hplen
          have hb : 0 < avg_neg (rsi_diffs P nn d j) :=
            abs_pos.mpr (ne_of_lt (div_neg_of_neg_of_pos (sum_neg_of_all_neg _ hnegl hneg) hnlen))
          subst h
          exact rsi_formula_bounds _ _ ha hb

/-- Witness for C8 on prices 1, 3, 2: differences +2 and -1, so
avg_pos = 2, avg_neg = 1, RS = 2 and the RSI value is 2/3. -/
theorem C8_rsi_amended_witness :
    oscillator_RSI pricesC8w 3 2 0 = some (2 / 3) := by
  have h := C8_rsi_amended pricesC8w 3 2 0 (fun k => ([1, 3, 2] : List ℚ).getD k 0)
    (by norm_num)
    (by intro k hk; interval_cases k <;> norm_num [pricesC8w, List.getD_cons_zero, List.getD_cons_succ])
  have hpne : posParts (rsi_diffs pricesC8w 3 2 0) ≠ [] := by
    simp [rsi_diffs, posParts, pricesC8w, osub, List.range_succ, List.getD_cons_zero, List.getD_cons_succ]
  have hnne : negParts (rsi_diffs pricesC8w 3 2 0) ≠ [] := by
    simp [rsi_diffs, negParts, pricesC8w, osub, List.range_succ, List.getD_cons_zero, List.getD_cons_succ]
    norm_num
  rw [h.2.2.1 hpne hnne]
  norm_num [avg_pos, avg_neg, rsi_diffs, posParts, negParts, pricesC8w, osub,
    List.range_succ, List.getD_cons_zero, List.getD_cons_succ]

/-! ## Claim C3 — the oscillators' absorbing rule -/

/-- One stock with prices 1, 2 and then permanent failure from day 2
(an absorbing price column, as the generator produces). -/
def pricesC3 : Mat := fun d s =>
  if s = 0 then (if d = 0 then some 1 else if d = 1 then some 2 else none) else none

/-- Counterexample to C3 as stated: the 3-day window ending on day 2
contains the failed day-2 price, so the claim demands an undefined RSI
value on day 2; but the RSI branch skips NaN differences (`nanmean`)
and, seeing one positive and no negative defined difference, assigns
the defined value 1. -/
theorem C3_rsi_ignores_failed_window :
    pricesC3 2 0 = none ∧
    oscillator_RSI pricesC3 3 2 0 = some 1 ∧
    oscillator_RSI pricesC3 3 2 0 ≠ none := by
  refine ⟨by simp [pricesC3], ?_, ?_⟩
  · simp [oscillator_RSI, pricesC3, rsi_diffs, posParts, negParts, osub, List.range_succ]
  · have h : oscillator_RSI pricesC3 3 2 0 = some 1 := by
      simp [oscillator_RSI, pricesC3, rsi_diffs, posParts, negParts, osub, List.range_succ]
    rw [h]
    simp

/-- Claim C3, corrected to the stochastic oscillator (the RSI branch
violates it, see the counterexample).  For a price matrix with the
absorbing-failure invariant: once any price of stock `s` in the window
ending on `day` is failed, the stochastic oscillator of `s` is NaN on
`day` and on every later day, permanently; and the oscillator of a
stock depends only on that stock's price column, so other stocks are
unaffected. -/
theorem C3_stochastic_absorbing (P : Mat) (nn s day k : ℕ)
    (habs : ∀ j d d', d ≤ d' → P d j = none → P d' j = none)
    (hk : k < nn) (hfail : P (day - (nn - 1) + k) s = none) :
    (∀ d', day ≤ d' → oscillator_stoch P nn d' s = none) ∧
    (∀ Q : Mat, (∀ d, Q d s = P d s) →
      ∀ d', oscillator_stoch Q nn d' s = oscillator_stoch P nn d' s) := by
  constructor
  · intro d' hd'
    by_cases hlt : d' < nn - 1
    · simp [oscillator_stoch, hlt]
    · have hle : day - (nn - 1) + k ≤ d' := by omega
      have hnone : P d' s = none := habs s _ d' hle hfail
      simp [oscillator_stoch, hlt, hnone]
  · intro Q hQ d'
    simp [oscillator_stoch, window, hQ]

/-- Witness for C3: on `pricesC3` (failed from day 2) the stochastic
oscillator with window 3 is NaN on days 2 and 3. -/
theorem C3_stochastic_absorbing_witness :
    oscillator_stoch pricesC3 3 2 0 = none ∧
    oscillator_stoch pricesC3 3 3 0 = none := by
  have habs : ∀ j d d', d ≤ d' → pricesC3 d j = none → pricesC3 d' j = none := by
    intro j d d' hle hn
    by_cases hj : j = 0
    · subst hj
      rcases d with _ | _ | d
      · simp [pricesC3] at hn
      · simp [pricesC3] at hn
      · have : ¬(d' = 0) ∧ ¬(d' = 1) := by omega
        simp [pricesC3, this.1, this.2]
    · simp [pricesC3, hj]
  have h := C3_stochastic_absorbing pricesC3 3 0 2 2 habs (by norm_num) (by simp [pricesC3])
  exact ⟨h.1 2 (le_refl 2), h.1 3 (by norm_num)⟩

/-! ## Claim C2 — the price generator's absorbing failure state -/

/-- `oadd` is NaN exactly when an operand is. -/
theorem oadd_eq_none_iff (x y : Option ℚ) : oadd x y = none ↔ x = none ∨ y = none := by
  cases x <;> cases y <;> simp [oadd]

/-- Which entries the random-walk update makes NaN: row `day` becomes
NaN iff it or its predecessor row already was; other rows are
untouched. -/
theorem stepA_none_iff (inc : ℕ → ℕ → ℚ) (M : Mat) (day d s : ℕ) :
    stepA inc M day d s = none ↔
      (M d s = none ∨ (d = day ∧ M (day - 1) s = none)) := by
  unfold stepA
  by_cases hd : d = day
  · subst hd
    simp [oadd_eq_none_iff]
  · simp [hd]

/-- The news update never changes which entries are NaN. -/
theorem stepB_none_iff (days : ℕ) (vol : List ℚ) (news : ℕ → Option (ℚ × ℕ))
    (M : Mat) (day d s : ℕ) :
    stepB days vol news M day d s = none ↔ M d s = none := by
  unfold stepB
  cases hnews : news day with
  | none => simp only [hnews]
  | some md =>
      simp only [hnews]
      by_cases h : day ≤ d ∧ d < min (day + md.2) days
      · rw [if_pos h, oadd_eq_none_iff]
        simp
      · rw [if_neg h]

/-- Rows before `day` are untouched by the walk and news updates. -/
theorem stepBA_stable (days : ℕ) (vol : List ℚ) (inc : ℕ → ℕ → ℚ)
    (news : ℕ → Option (ℚ × ℕ)) (M : Mat) (day d s : ℕ) (h : d < day) :
    stepB days vol news (stepA inc M day) day d s = stepA inc M day d s := by
  unfold stepB
  cases hnews : news day with
  | none => simp only [hnews]
  | some md =>
      simp only [hnews]
      rw [if_neg (fun hc => absurd hc.1 (not_le.mpr h))]

/-- Rows before `day` are untouched by one whole loop iteration. -/
theorem stepDay_stable (days : ℕ) (vol : List ℚ) (inc : ℕ → ℕ → ℚ)
    (news : ℕ → Option (ℚ × ℕ)) (M : Mat) (day d s : ℕ) (h : d < day) :
    stepDay days vol inc news M day d s = M d s := by
  unfold stepDay
  rw [if_neg (fun hc => absurd hc.1 (not_le.mpr h))]
  rw [stepBA_stable days vol inc news M day d s h]
  unfold stepA
  rw [if_neg (by omega)]

/-- A NaN entry stays NaN through one loop iteration. -/
theorem stepDay_none (days : ℕ) (vol : List ℚ) (inc : ℕ → ℕ → ℚ)
    (news : ℕ → Option (ℚ × ℕ)) (M : Mat) (day d s : ℕ) (h : M d s = none) :
    stepDay days vol inc news M day d s = none := by
  unfold stepDay
  by_cases hmark : day ≤ d ∧
      failsAt (stepB days vol news (stepA inc M day) day day s) = true
  · rw [if_pos hmark]
  · rw [if_neg hmark]
    exact (stepB_none_iff days vol news _ day d s).mpr
      ((stepA_none_iff inc M day d s).mpr (Or.inl h))

/-- The failure set of every column is upward closed in time. -/
def UpClosed (M : Mat) : Prop :=
  ∀ s d d', d ≤ d' → M d s = none → M d' s = none

/-- One loop iteration preserves upward-closedness of failure:
row `day` can only become NaN through its predecessor (upward closed
by hypothesis) or the bankruptcy marking, which NaNs a whole suffix. -/
theorem stepDay_upClosed (days : ℕ) (vol : List ℚ) (inc : ℕ → ℕ → ℚ)
    (news : ℕ → Option (ℚ × ℕ)) (M : Mat) (day : ℕ)
    (hM : UpClosed M) : UpClosed (stepDay days vol inc news M day) := by
  intro s d d' hdd' hnone
  unfold stepDay at hnone ⊢
  by_cases hmark : day ≤ d ∧
      failsAt (stepB days vol news (stepA inc M day) day day s) = true
  · rw [if_pos ⟨le_trans hmark.1 hdd', hmark.2⟩]
  · rw [if_neg hmark] at hnone
    have hAd : stepA inc M day d s = none :=
      (stepB_none_iff days vol news _ day d s).mp hnone
    have hMd' : M d' s = none := by
      rcases (stepA_none_iff inc M day d s).mp hAd with hMd | ⟨hdday, hprev⟩
      · exact hM s d d' hdd' hMd
      · exact hM s (day - 1) d' (by omega) hprev
    by_cases hmark' : day ≤ d' ∧
        failsAt (stepB days vol news (stepA inc M day) day day s) = true
    · rw [if_pos hmark']
    · rw [if_neg hmark']
      exact (stepB_none_iff days vol news _ day d' s).mpr
        ((stepA_none_iff inc M day d' s).mpr (Or.inl hMd'))

/-- All defined entries on rows `≤ k` are positive. -/
def RowsPos (M : Mat) (k : ℕ) : Prop :=
  ∀ d ≤ k, ∀ s v, M d s = some v → 0 < v

/-- One loop iteration extends row positivity from `day - 1` to `day`:
the marking turns any entry `≤ 0` of row `day` into NaN, so whatever
stays defined on row `day` is positive. -/
theorem stepDay_rowsPos (days : ℕ) (vol : List ℚ) (inc : ℕ → ℕ → ℚ)
    (news : ℕ → Option (ℚ × ℕ)) (M : Mat) (day : ℕ) (hday : 1 ≤ day)
    (hM : RowsPos M (day - 1)) : RowsPos (stepDay days vol inc news M day) day := by
  intro d hd s v hv
  unfold stepDay at hv
  by_cases hmark : day ≤ d ∧
      failsAt (stepB days vol news (stepA inc M day) day day s) = true
  · rw [if_pos hmark] at hv
    exact absurd hv (by simp)
  · rw [if_neg hmark] at hv
    rcases lt_or_ge d day with hlt | hge
    · rw [stepBA_stable days vol inc news M day d s hlt] at hv
      unfold stepA at hv
      rw [if_neg (by omega)] at hv
      exact hM d (by omega) s v hv
    · have hdeq : d = day := le_antisymm hd hge
      subst hdeq
      have hnf : ¬ failsAt (stepB days vol news (stepA inc M d) d d s) = true :=
        fun hf => hmark ⟨le_refl d, hf⟩
      rw [hv] at hnf
      simp only [failsAt, decide_eq_true_eq] at hnf
      exact lt_of_not_ge fun hge' => hnf (by linarith)

/-- A NaN entry stays NaN through the rest of the loop. -/
theorem priceSteps_none (days : ℕ) (vol : List ℚ) (inc : ℕ → ℕ → ℚ)
    (news : ℕ → Option (ℚ × ℕ)) :
    ∀ (j k : ℕ) (M : Mat) (d s : ℕ), M d s = none →
      priceSteps days vol inc news M k j d s = none
  | 0, _, _, _, _, h => h
  | j + 1, k, M, d, s, h =>
      priceSteps_none days vol inc news j (k + 1) _ d s
        (stepDay_none days vol inc news M k d s h)

/-- The loop preserves upward-closedness of failure. -/
theorem priceSteps_upClosed (days : ℕ) (vol : List ℚ) (inc : ℕ → ℕ → ℚ)
    (news : ℕ → Option (ℚ × ℕ)) :
    ∀ (j k : ℕ) (M : Mat), UpClosed M → UpClosed (priceSteps days vol inc news M k j)
  | 0, _, _, hM => hM
  | j + 1, k, M, hM =>
      priceSteps_upClosed days vol inc news j (k + 1) _
        (stepDay_upClosed days vol inc news M k hM)

/-- The loop from day `k` leaves rows before `k` unchanged. -/
theorem priceSteps_stable (days : ℕ) (vol : List ℚ) (inc : ℕ → ℕ → ℚ)
    (news : ℕ → Option (ℚ × ℕ)) :
    ∀ (j k : ℕ) (M : Mat) (d s : ℕ), d < k →
      priceSteps days vol inc news M k j d s = M d s
  | 0, _, _, _, _, _ => rfl
  | j + 1, k, M, d, s, h => by
      show priceSteps days vol inc news (stepDay days vol inc news M k) (k + 1) j d s = M d s
      rw [priceSteps_stable days vol inc news j (k + 1) _ d s (by omega)]
      exact stepDay_stable days vol inc news M k d s h

/-- Row positivity propagates through the rest of the loop. -/
theorem priceSteps_rowsPos (days : ℕ) (vol : List ℚ) (inc : ℕ → ℕ → ℚ)
    (news : ℕ → Option (ℚ × ℕ)) :
    ∀ (j k : ℕ) (M : Mat), 1 ≤ k → RowsPos M (k - 1) →
      RowsPos (priceSteps days vol inc news M k j) (k - 1 + j)
  | 0, k, M, _, hM => by simpa using hM
  | j + 1, k, M, hk, hM => by
      have h1 : RowsPos (stepDay days vol inc news M k) k :=
        stepDay_rowsPos days vol inc news M k hk hM
      have h2 := priceSteps_rowsPos days vol inc news j (k + 1)
        (stepDay days vol inc news M k) (by omega) (by simpa using h1)
      have harith : k - 1 + (j + 1) = k + 1 - 1 + j := by omega
      rw [harith]
      exact h2

/-- The failure set of each column of the day-0 matrix is all of it or
empty: trivially upward closed. -/
theorem initMatrix_upClosed (initial_prices : List ℚ) :
    UpClosed (initMatrix initial_prices) := by
  intro s d d' _ h
  by_cases h0 : initial_prices.getD s 0 = 0
  · unfold initMatrix
    rw [if_pos h0]
  · unfold initMatrix at h
    rw [if_neg h0] at h
    split at h <;> simp_all

/-- With non-negative initial prices, every defined entry of the day-0
matrix on row 0 is positive (a zero initial price is already NaN). -/
theorem initMatrix_rowsPos (initial_prices : List ℚ)
    (hp : ∀ s, 0 ≤ initial_prices.getD s 0) :
    RowsPos (initMatrix initial_prices) 0 := by
  intro d hd s v hv
  interval_cases d
  by_cases h0 : initial_prices.getD s 0 = 0
  · unfold initMatrix at hv
    rw [if_pos h0] at hv
    exact absurd hv (by simp)
  · unfold initMatrix at hv
    rw [if_neg h0, if_pos rfl, Option.some.injEq] at hv
    subst hv
    exact lt_of_le_of_ne (hp s) (Ne.symm h0)

/-- A zero initial price marks the whole column NaN from day 0. -/
theorem initMatrix_zero_col (initial_prices : List ℚ) (s : ℕ)
    (h0 : initial_prices.getD s 0 = 0) :
    ∀ d, initMatrix initial_prices d s = none := by
  intro d
  unfold initMatrix
  rw [if_pos h0]

/-- Claim C2, confirmed.  For every matrix the generator returns (any
draws, any horizon, non-negative initial prices):
1. failure is absorbing — a NaN entry makes the whole rest of that
   stock's column NaN;
2. a stock with initial price 0 is NaN on every day;
3. every defined entry within the horizon is strictly positive — a
   price that ever reaches `≤ 0` is never shown: the marking turns it
   and all later days of that stock into NaN, with no recovery (by 1). -/
theorem C2_generator_absorbing (days : ℕ) (initial_prices volatility : List ℚ)
    (inc : ℕ → ℕ → ℚ) (newsDraw : ℕ → Option (ℚ × ℕ))
    (hp : ∀ s, 0 ≤ initial_prices.getD s 0) :
    (∀ s d d', d ≤ d' →
      generate_stock_price days initial_prices volatility inc newsDraw d s = none →
      generate_stock_price days initial_prices volatility inc newsDraw d' s = none) ∧
    (∀ s, initial_prices.getD s 0 = 0 →
      ∀ d, generate_stock_price days initial_prices volatility inc newsDraw d s = none) ∧
    (∀ d, d < days → ∀ s v,
      generate_stock_price days initial_prices volatility inc newsDraw d s = some v →
      0 < v) := by
  refine ⟨?_, ?_, ?_⟩
  · exact priceSteps_upClosed days volatility inc newsDraw (days - 1) 1 _
      (initMatrix_upClosed initial_prices)
  · intro s h0 d
    exact priceSteps_none days volatility inc newsDraw (days - 1) 1 _ d s
      (initMatrix_zero_col initial_prices s h0 d)
  · intro d hd s v hv
    have hpos := priceSteps_rowsPos days volatility inc newsDraw (days - 1) 1
      (initMatrix initial_prices) (le_refl 1)
      (by simpa using initMatrix_rowsPos initial_prices hp)
    exact hpos d (by omega) s v hv

/-- Draws for the C2 witness: two stocks with initial prices 1 and 0,
constant decrement -5 (so stock 0 goes bankrupt on day 1), no news. -/
def genW : Mat :=
  generate_stock_price 3 [1, 0] [1, 1] (fun _ _ => -5) (fun _ => none)

/-- Witness for C2: stock 0's price hits 1 - 5 = -4 on day 1, is
marked NaN there, and by the absorbing property stays NaN on day 2;
stock 1 starts at price 0 and is NaN from day 0; the day-0 price of
stock 0 is the positive 1. -/
theorem C2_generator_absorbing_witness :
    genW 1 0 = none ∧ genW 2 0 = none ∧ genW 0 1 = none ∧ genW 0 0 = some 1 := by
  have h := C2_generator_absorbing 3 [1, 0] [1, 1] (fun _ _ => -5) (fun _ => none)
    (by
      intro s
      match s with
      | 0 => norm_num
      | 1 => norm_num
      | n + 2 => simp [List.getD])
  have h1 : genW 1 0 = none := by
    simp [genW, generate_stock_price, priceSteps, stepDay, stepA, stepB, initMatrix,
      failsAt, oadd]
  refine ⟨h1, h.1 0 1 2 (by norm_num) h1, h.2.1 1 (by simp [List.getD]) 0, ?_⟩
  simp [genW, generate_stock_price, priceSteps, stepDay, stepA, stepB, initMatrix,
    failsAt, oadd]
